import Mathlib

/-!
Verification of the training-loop machinery of `src/learn/src/main.rs`
(the `learn` binary of the takzero repository).

The Rust code is shallowly embedded as follows:
* `Vec<TargetWithContext>` buffers become `List (TargetWithContext α)`,
  where `α` stands for the opaque `Target<Env>` payload;
  the end of the `Vec` (where `drain(len - k ..)` removes records)
  is the end of the list.
* `usize` / `u32` counters become `Nat`; every decrement in the source is
  guarded (`uses_available > 1`), so no wrap-around can occur and `Nat`
  is faithful.
* File contents are `Option (List σ)`: `none` models a file that cannot be
  opened (the `?` on `OpenOptions::open`), `some lines` the list of lines;
  parsing a line is an abstract `parse : σ → Option α`
  (`line.parse().ok()` in the source).
* `rand::Rng`-driven shuffles (`slice::shuffle`) are modelled by explicit
  reordering functions; theorems that need them to be shuffles assume they
  produce permutations of their input.
* Rust `sort_unstable_by_key(|t| Reverse((t.model_steps, t.uses_available)))`
  becomes `List.mergeSort` with the corresponding descending comparator;
  only the sortedness and multiset of the result are relied upon.
-/

namespace Takzero

/-! ### Constants from `src/learn/src/main.rs` -/

def BATCH_SIZE : Nat := 128
def STEPS_PER_SAVE : Nat := 10
def STEPS_PER_CHECKPOINT : Nat := 1000
def STEPS_BEFORE_REANALYZE : Nat := 5000
def MIN_EXPLOITATION_BUFFER_LEN : Nat := 2000
def MAX_EXPLOITATION_BUFFER_LEN : Nat := 10000
def MAX_REANALYZE_BUFFER_LEN : Nat := 10000
def EXPLOITATION_TARGET_USES_AVAILABLE : Nat := 1
def REANALYZE_TARGET_USES_AVAILABLE : Nat := 1

/-! ### Buffered records -/

/-- Embedding of `struct TargetWithContext`: a target payload together with
its remaining-use count and the model-step count at ingestion time. -/
structure TargetWithContext (α : Type) where
  target : α
  uses_available : Nat
  model_steps : Nat
deriving DecidableEq

/-- Embedding of `TargetWithContext::reuse`: the record is returned (with
`uses_available` decremented) when more than one use remains, otherwise it
is dropped. -/
def TargetWithContext.reuse {α : Type} (t : TargetWithContext α) :
    Option (TargetWithContext α) :=
  if t.uses_available > 1 then
    some { t with uses_available := t.uses_available - 1 }
  else
    none

/-- Iterated draws of one record: `reuseIter k t` is what is left of `t`
after it has been drawn into `k` batches (each draw applies `reuse`). -/
def reuseIter {α : Type} (k : Nat) (t : TargetWithContext α) :
    Option (TargetWithContext α) :=
  match k with
  | 0 => some t
  | k + 1 => (reuseIter k t).bind TargetWithContext.reuse

/-! ### Buffer truncation -/

/-- Comparator realising `Reverse((t.model_steps, t.uses_available))` from
`truncate_buffer_if_needed`: `priorityLe a b` holds when `a` sorts no later
than `b`, i.e. when `a`'s key `(model_steps, uses_available)` is
lexicographically at least `b`'s (newer ingestion first, then more
remaining uses first). -/
def priorityLe {α : Type} (a b : TargetWithContext α) : Bool :=
  decide (b.model_steps < a.model_steps) ||
    (decide (a.model_steps = b.model_steps) &&
      decide (b.uses_available ≤ a.uses_available))

/-- Embedding of `truncate_buffer_if_needed`: when the buffer exceeds
`max_length`, sort by descending `(model_steps, uses_available)` and keep
only the first `max_length` records. -/
def truncate_buffer_if_needed {α : Type} (buffer : List (TargetWithContext α))
    (max_length : Nat) : List (TargetWithContext α) :=
  if buffer.length > max_length then
    (buffer.mergeSort priorityLe).take max_length
  else
    buffer

/-! ### Target stream reader -/

/-- Embedding of `fill_buffer_with_targets`. The file is `none` when it
cannot be opened (the `?` on `OpenOptions::open` returns early with the
error before the buffer or the cursor is touched) and `some lines`
otherwise. The reader skips `targets_already_read` lines, counts every
remaining line into the cursor, keeps only the lines that parse
(`filter_map(|line| line.parse().ok())`), and appends them to the buffer
with the caller-supplied `uses_available` and `model_steps`. -/
def fill_buffer_with_targets {σ α : Type} (parse : σ → Option α)
    (buffer : List (TargetWithContext α)) (targets_already_read : Nat)
    (file : Option (List σ)) (uses_available : Nat) (model_steps : Nat) :
    Except Unit (List (TargetWithContext α) × Nat) :=
  match file with
  | none => Except.error ()
  | some lines =>
      let remaining := lines.drop targets_already_read
      Except.ok
        (buffer ++ (remaining.filterMap parse).map
            (fun target => ⟨target, uses_available, model_steps⟩),
          targets_already_read + remaining.length)

/-- Embedding of `fill_buffers`: ingest the selfplay stream into the
exploitation buffer (logging and continuing on a read error), truncate it,
and, only when `using_reanalyze` is set, do the same for the reanalyze
stream. The source truncates the reanalyze buffer with
`MAX_EXPLOITATION_BUFFER_LEN` as well (line 453 of `main.rs`). Returns
`(exploitation buffer, exploitation cursor, reanalyze buffer, reanalyze
cursor)`. -/
def fill_buffers {σ α : Type} (parse : σ → Option α)
    (exploitation_buffer : List (TargetWithContext α))
    (exploitation_targets_read : Nat)
    (reanalyze_buffer : List (TargetWithContext α))
    (reanalyze_targets_read : Nat)
    (selfplayFile reanalyzeFile : Option (List σ))
    (model_steps : Nat) (using_reanalyze : Bool) :
    List (TargetWithContext α) × Nat × List (TargetWithContext α) × Nat :=
  let ePair :=
    match fill_buffer_with_targets parse exploitation_buffer
        exploitation_targets_read selfplayFile
        EXPLOITATION_TARGET_USES_AVAILABLE model_steps with
    | Except.ok p => p
    | Except.error _ => (exploitation_buffer, exploitation_targets_read)
  let eBuf := truncate_buffer_if_needed ePair.1 MAX_EXPLOITATION_BUFFER_LEN
  if using_reanalyze then
    let rPair :=
      match fill_buffer_with_targets parse reanalyze_buffer
          reanalyze_targets_read reanalyzeFile
          REANALYZE_TARGET_USES_AVAILABLE model_steps with
      | Except.ok p => p
      | Except.error _ => (reanalyze_buffer, reanalyze_targets_read)
    let rBuf := truncate_buffer_if_needed rPair.1 MAX_EXPLOITATION_BUFFER_LEN
    (eBuf, ePair.2, rBuf, rPair.2)
  else
    (eBuf, ePair.2, reanalyze_buffer, reanalyze_targets_read)

/-! ### Batch composer and main loop -/

/-- Embedding of `create_batch`. The two `slice::shuffle(rng)` calls are
modelled by the reordering functions `exploitation_shuffle` and
`reanalyze_shuffle` (theorems assume they permute their input). `drain`
from index `len − k` removes the last `k` elements, so drawing is
`List.drop` of the shuffled buffer and the kept front is `List.take`; the
drawn records are reinserted through `TargetWithContext.reuse`, the first
`BATCH_SIZE / 2` of the batch into the exploitation buffer and the rest
into the reanalyze buffer. Returns `(drawn batch, new exploitation buffer,
new reanalyze buffer)`. -/
def create_batch {α : Type} (using_reanalyze : Bool)
    (exploitation_shuffle reanalyze_shuffle :
      List (TargetWithContext α) → List (TargetWithContext α))
    (exploitation_buffer reanalyze_buffer : List (TargetWithContext α)) :
    List (TargetWithContext α) × List (TargetWithContext α) ×
      List (TargetWithContext α) :=
  let e := exploitation_shuffle exploitation_buffer
  let r := reanalyze_shuffle reanalyze_buffer
  if using_reanalyze then
    let batch := e.drop (e.length - BATCH_SIZE / 2) ++
      r.drop (r.length - BATCH_SIZE / 2)
    (batch,
      e.take (e.length - BATCH_SIZE / 2) ++
        (batch.take (BATCH_SIZE / 2)).filterMap TargetWithContext.reuse,
      r.take (r.length - BATCH_SIZE / 2) ++
        (batch.drop (BATCH_SIZE / 2)).filterMap TargetWithContext.reuse)
  else
    let batch := e.drop (e.length - BATCH_SIZE)
    (batch,
      e.take (e.length - BATCH_SIZE) ++
        batch.filterMap TargetWithContext.reuse,
      r)

/-- State carried across iterations of the main training loop. -/
structure LoopState (α : Type) where
  model_steps : Nat
  exploitation_buffer : List (TargetWithContext α)
  exploitation_targets_read : Nat
  reanalyze_buffer : List (TargetWithContext α)
  reanalyze_targets_read : Nat
deriving DecidableEq

/-- Per-iteration external input: the two stream files as seen by this
poll (`none` = cannot open) and the reorderings performed by the two
`shuffle(rng)` calls of `create_batch`. -/
structure StepInput (σ α : Type) where
  selfplayFile : Option (List σ)
  reanalyzeFile : Option (List σ)
  exploitation_shuffle :
    List (TargetWithContext α) → List (TargetWithContext α)
  reanalyze_shuffle :
    List (TargetWithContext α) → List (TargetWithContext α)

/-- Readiness check of the main loop, applied to the post-ingestion
buffers: `enough_exploitation_targets && enough_reanalyze_targets`. -/
def readyToTrain {α : Type} (using_reanalyze : Bool)
    (eBuf rBuf : List (TargetWithContext α)) : Bool :=
  decide (MIN_EXPLOITATION_BUFFER_LEN ≤ eBuf.length) &&
    (!using_reanalyze || decide (BATCH_SIZE / 2 ≤ rBuf.length))

/-- Phase selector of the main loop:
`let using_reanalyze = model_steps >= STEPS_BEFORE_REANALYZE`. -/
def phaseOf {α : Type} (s : LoopState α) : Bool :=
  decide (STEPS_BEFORE_REANALYZE ≤ s.model_steps)

/-- The buffers and cursors right after the `fill_buffers` call of one
loop iteration. -/
def filledOf {σ α : Type} (parse : σ → Option α) (input : StepInput σ α)
    (s : LoopState α) :
    List (TargetWithContext α) × Nat × List (TargetWithContext α) × Nat :=
  fill_buffers parse s.exploitation_buffer s.exploitation_targets_read
    s.reanalyze_buffer s.reanalyze_targets_read
    input.selfplayFile input.reanalyzeFile s.model_steps (phaseOf s)

/-- One iteration of the main training loop (`for model_steps in
starting_steps..`): determine the phase from the current step count,
ingest (`fill_buffers`), check readiness, and either compose a batch
(returned as `some batch`, standing for the training step taken on it) or
skip training for this iteration (`none`, the 30-second sleep). The loop
variable advances to `model_steps + 1` on every iteration, in both
branches. -/
def mainLoopStep {σ α : Type} (parse : σ → Option α) (input : StepInput σ α)
    (s : LoopState α) : LoopState α × Option (List (TargetWithContext α)) :=
  let filled := filledOf parse input s
  if readyToTrain (phaseOf s) filled.1 filled.2.2.1 then
    let result := create_batch (phaseOf s) input.exploitation_shuffle
      input.reanalyze_shuffle filled.1 filled.2.2.1
    (⟨s.model_steps + 1, result.2.1, filled.2.1, result.2.2, filled.2.2.2⟩,
      some result.1)
  else
    (⟨s.model_steps + 1, filled.1, filled.2.1, filled.2.2.1, filled.2.2.2⟩,
      none)

/-- Iterated main loop under a stream of per-iteration inputs. -/
def runLoop {σ α : Type} (parse : σ → Option α)
    (inputs : Nat → StepInput σ α) : Nat → LoopState α → LoopState α
  | 0, s => s
  | k + 1, s => (mainLoopStep parse (inputs k) (runLoop parse inputs k s)).1

/-! ### Checkpoint discovery -/

/-- Split a character list at every occurrence of `c` (like
`String::split`); never returns an empty list of parts. -/
def splitOnChar (c : Char) : List Char → List (List Char)
  | [] => [[]]
  | x :: xs =>
    match splitOnChar c xs with
    | [] => [[]]
    | y :: ys => if x = c then [] :: y :: ys else (x :: y) :: ys

/-- Stem and extension of a plain file name, with the semantics of Rust's
`Path::file_stem` / `Path::extension`: no dot (or only a leading dot)
means no extension; otherwise split at the last dot. -/
def fileStemAndExt (name : List Char) : List Char × Option (List Char) :=
  match splitOnChar '.' name with
  | [] => (name, none)
  | [_] => (name, none)
  | [] :: [_] => (name, none)
  | parts => (List.intercalate ['.'] parts.dropLast, some (parts.getLastD []))

/-- Split at the first occurrence of `'_'`, like Rust's
`str::split_once('_')`; `none` when there is no underscore. -/
def splitOnceUnderscore (s : List Char) : Option (List Char × List Char) :=
  match splitOnChar '_' s with
  | [] => none
  | [_] => none
  | part :: parts => some (part, List.intercalate ['_'] parts)

/-- Parse a `usize` with the semantics of Rust's `str::parse::<usize>`:
an optional leading `'+'`, then one or more ASCII digits, rejecting
values that overflow 64 bits. -/
def parseUsize (s : List Char) : Option Nat :=
  let digits := match s with
    | '+' :: rest => rest
    | _ => s
  if digits = [] then none
  else if digits.all Char.isDigit then
    let v := digits.foldl (fun acc c => acc * 10 + (c.toNat - '0'.toNat)) 0
    if v < 2 ^ 64 then some v else none
  else none

/-- The step count embedded in one directory entry, per the filters of
`get_model_path_with_most_steps`: the extension must be `ot` and the part
of the stem after the first `'_'` must parse as a `usize`; any other name
(including `model_latest.ot`, whose suffix `latest` does not parse) is
ignored. -/
def checkpointSteps (name : List Char) : Option Nat :=
  let se := fileStemAndExt name
  if se.2 = some ['o', 't'] then
    match splitOnceUnderscore se.1 with
    | some p => parseUsize p.2
    | none => none
  else none

/-- Fold implementing `Iterator::max_by_key` on the step number: among
equal keys the later entry wins, `none` on an empty iterator. -/
def maxByKeyLast (l : List (Nat × List Char)) : Option (Nat × List Char) :=
  l.foldl (fun acc x =>
    match acc with
    | none => some x
    | some a => if a.1 ≤ x.1 then some x else some a) none

/-- Embedding of `get_model_path_with_most_steps`: directory entries are
file names; keep those recognised as checkpoints and return the one whose
name embeds the largest step count, paired with that count. -/
def get_model_path_with_most_steps (directory : List (List Char)) :
    Option (Nat × List Char) :=
  maxByKeyLast (directory.filterMap
    (fun p => (checkpointSteps p).map (fun s => (s, p))))

/-! ### Bootstrapper (pre-training target synthesis)

The environment and evaluation types of the `takzero` crate are consumed
through a narrow interface: a state type `S` with a legal-action
enumeration `populate_actions : S → List A` (the `populate_actions` calls
of `pre_training`), and an evaluation type `V` with its `negate`
operation (`Eval::negate`). The `f32` policy probability
`1.0 / actions.len()` is modelled exactly in `ℚ`, and the fixed
placeholder uncertainty `ube: 1.0` as `(1 : ℚ)`. -/

/-- One synthesized training target of the bootstrap phase
(the `Target` pushed by `pre_training`). -/
structure PreTrainingTarget (S A V : Type) where
  env : S
  policy : List (A × ℚ)
  value : V
  ube : ℚ
deriving DecidableEq

/-- The reverse walk of `pre_training` over one finished episode, after
the `states.drain(..).rev()` reversal: `value` starts as the terminal
outcome, is negated before each push, and each visited state gets a
uniform policy over its legal actions and the fixed `ube = 1`. -/
def episodeTargetsAux {S A V : Type} (populate_actions : S → List A)
    (negate : V → V) : V → List S → List (PreTrainingTarget S A V)
  | _, [] => []
  | value, env :: rest =>
      let actions := populate_actions env
      let p : ℚ := 1 / actions.length
      let value := negate value
      ⟨env, actions.map (fun a => (a, p)), value, 1⟩ ::
        episodeTargetsAux populate_actions negate value rest

/-- Targets created from one finished episode of `pre_training`:
`states` are the pre-move positions in play order (the position after the
last move is terminal and is not in the list), `terminalValue` is
`Eval::from(game.terminal())`. -/
def episodeTargets {S A V : Type} (populate_actions : S → List A)
    (negate : V → V) (terminalValue : V) (states : List S) :
    List (PreTrainingTarget S A V) :=
  episodeTargetsAux populate_actions negate terminalValue states.reverse

/-! ### Theorems -/

/-- C2: a record seeded with `uses_available = U` (U ≥ 1) survives exactly
its first `U - 1` draws (with `uses_available` counting down by one per
draw), is discarded by its `U`-th draw, and is absent ever after. -/
theorem reuse_exact_uses {α : Type} (t : TargetWithContext α) (U : Nat)
    (hU : t.uses_available = U) (h1 : 1 ≤ U) :
    (∀ k, k < U → reuseIter k t = some ⟨t.target, U - k, t.model_steps⟩) ∧
    (∀ k, U ≤ k → reuseIter k t = none) := by
  have survive : ∀ k, k < U → reuseIter k t = some ⟨t.target, U - k, t.model_steps⟩ := by
    intro k
    induction k with
    | zero =>
      intro _
      simp [reuseIter, ← hU]
    | succ k ih =>
      intro hk
      have hk' : k < U := Nat.lt_of_succ_lt hk
      rw [reuseIter, ih hk']
      have h2 : 1 < U - k := by omega
      simp [Option.bind, TargetWithContext.reuse, h2]
      omega
  refine ⟨survive, ?_⟩
  have hdead : reuseIter U t = none := by
    obtain ⟨U', rfl⟩ : ∃ U', U = U' + 1 := ⟨U - 1, by omega⟩
    rw [reuseIter, survive U' (by omega)]
    simp [Option.bind, TargetWithContext.reuse]
  intro k hk
  obtain ⟨d, rfl⟩ : ∃ d, k = U + d := ⟨k - U, by omega⟩
  clear hk
  induction d with
  | zero => exact hdead
  | succ d ih => rw [← Nat.add_assoc, reuseIter, ih]; rfl

theorem priorityLe_trans {α : Type} (a b c : TargetWithContext α)
    (hab : priorityLe a b) (hbc : priorityLe b c) : priorityLe a c := by
  simp only [priorityLe, Bool.or_eq_true, Bool.and_eq_true, decide_eq_true_eq] at *
  omega

theorem priorityLe_total {α : Type} (a b : TargetWithContext α) :
    priorityLe a b || priorityLe b a := by
  simp only [priorityLe, Bool.or_eq_true, Bool.and_eq_true, decide_eq_true_eq]
  omega

/-- C3: a truncation pass always leaves the buffer at or below the capacity
limit, and when the buffer was over the limit it keeps exactly
`max_length` records which all rank at least as high as every discarded
record under the composite priority order (primarily larger `model_steps`,
secondarily larger `uses_available`). -/
theorem truncate_buffer_spec {α : Type} (buffer : List (TargetWithContext α))
    (max_length : Nat) :
    (truncate_buffer_if_needed buffer max_length).length ≤ max_length ∧
    (∀ x y : TargetWithContext α, priorityLe x y = true ↔
      (y.model_steps < x.model_steps ∨
        (x.model_steps = y.model_steps ∧ y.uses_available ≤ x.uses_available))) ∧
    (buffer.length > max_length →
      (truncate_buffer_if_needed buffer max_length).length = max_length ∧
      ∃ dropped,
        (truncate_buffer_if_needed buffer max_length ++ dropped).Perm buffer ∧
        ∀ x ∈ truncate_buffer_if_needed buffer max_length,
          ∀ y ∈ dropped, priorityLe x y = true) := by
  refine ⟨?_, ?_, ?_⟩
  · rw [truncate_buffer_if_needed]
    split
    · exact le_trans (List.length_take_le _ _) (le_refl _)
    · omega
  · intro x y
    simp only [priorityLe, Bool.or_eq_true, Bool.and_eq_true, decide_eq_true_eq]
  · intro hlen
    have hif : truncate_buffer_if_needed buffer max_length =
        (buffer.mergeSort priorityLe).take max_length := by
      rw [truncate_buffer_if_needed, if_pos hlen]
    have hperm : List.Perm (buffer.mergeSort priorityLe) buffer :=
      List.mergeSort_perm _ _
    have hlen' : (buffer.mergeSort priorityLe).length = buffer.length :=
      hperm.length_eq
    constructor
    · rw [hif, List.length_take]
      omega
    · refine ⟨(buffer.mergeSort priorityLe).drop max_length, ?_, ?_⟩
      · rw [hif, List.take_append_drop]
        exact hperm
      · intro x hx y hy
        rw [hif] at hx
        have hsorted : (buffer.mergeSort priorityLe).Pairwise (priorityLe · ·) :=
          List.sorted_mergeSort (fun a b c => priorityLe_trans a b c)
            (fun a b => priorityLe_total a b) buffer
        rw [← List.take_append_drop max_length (buffer.mergeSort priorityLe),
          List.pairwise_append] at hsorted
        exact hsorted.2.2 x hx y hy

/-- Witness for `truncate_buffer_spec` at a concrete over-full buffer. -/
theorem truncate_buffer_spec_witness :
    ([⟨(0 : Nat), 1, 5⟩, ⟨1, 2, 9⟩, ⟨2, 3, 9⟩] :
        List (TargetWithContext Nat)).length > 2 ∧
    (truncate_buffer_if_needed
        [⟨(0 : Nat), 1, 5⟩, ⟨1, 2, 9⟩, ⟨2, 3, 9⟩] 2).length = 2 := by
  refine ⟨by decide, ?_⟩
  exact ((truncate_buffer_spec
    [⟨(0 : Nat), 1, 5⟩, ⟨1, 2, 9⟩, ⟨2, 3, 9⟩] 2).2.2 (by decide)).1

/-- C4: with a prior read count `k ≤ n` on a file of lines `L1..Ln`, a read
returns exactly the records that parse from lines `L(k+1)..Ln` (unparsable
lines silently dropped) appended to the buffer and moves the cursor to
`n`; a second read at cursor `n` with no new lines appends nothing and
leaves the cursor at `n`. -/
theorem fill_buffer_reads_exactly_new_lines {σ α : Type} (parse : σ → Option α)
    (buffer : List (TargetWithContext α)) (k : Nat) (lines : List σ)
    (uses_available model_steps : Nat) (hk : k ≤ lines.length) :
    fill_buffer_with_targets parse buffer k (some lines) uses_available
        model_steps =
      Except.ok
        (buffer ++ ((lines.drop k).filterMap parse).map
            (fun target => ⟨target, uses_available, model_steps⟩),
          lines.length) ∧
    ∀ buffer' : List (TargetWithContext α),
      fill_buffer_with_targets parse buffer' lines.length (some lines)
          uses_available model_steps =
        Except.ok (buffer', lines.length) := by
  constructor
  · rw [fill_buffer_with_targets]
    simp only [List.length_drop]
    congr 2
    omega
  · intro buffer'
    rw [fill_buffer_with_targets]
    simp

/-- Witness for `fill_buffer_reads_exactly_new_lines` on a concrete
four-line file read from cursor 1, where line 3 fails to parse. -/
theorem fill_buffer_reads_exactly_new_lines_witness :
    fill_buffer_with_targets (fun n => if n = 30 then none else some n)
        [⟨(10 : Nat), 1, 0⟩] 1 (some [10, 20, 30, 40]) 1 6 =
      Except.ok ([⟨10, 1, 0⟩, ⟨20, 1, 6⟩, ⟨40, 1, 6⟩], 4) := by
  have h := fill_buffer_reads_exactly_new_lines
    (fun n => if n = 30 then none else some n)
    [⟨(10 : Nat), 1, 0⟩] 1 [10, 20, 30, 40] 1 6 (by decide)
  rw [h.1]
  rfl

/-- C5: when the stream file cannot be opened the read returns a
recoverable error and touches neither the cursor nor the buffer, and the
calling ingestion pass (`fill_buffers`) swallows the error and returns
with both buffers and both cursors unchanged (the truncation that follows
the failed read is the identity as long as the buffers were within their
limits). -/
theorem open_failure_leaves_state_unchanged {σ α : Type} (parse : σ → Option α)
    (buffer : List (TargetWithContext α)) (k uses_available model_steps : Nat) :
    fill_buffer_with_targets parse buffer k (none : Option (List σ))
        uses_available model_steps = Except.error () ∧
    ∀ (e r : List (TargetWithContext α)) (eRead rRead ms : Nat)
      (ur : Bool),
      e.length ≤ MAX_EXPLOITATION_BUFFER_LEN →
      r.length ≤ MAX_EXPLOITATION_BUFFER_LEN →
      fill_buffers parse e eRead r rRead (none : Option (List σ)) none ms ur =
        (e, eRead, r, rRead) := by
  constructor
  · rfl
  · intro e r eRead rRead ms ur he hr
    have htrunc : ∀ (b : List (TargetWithContext α)),
        b.length ≤ MAX_EXPLOITATION_BUFFER_LEN →
        truncate_buffer_if_needed b MAX_EXPLOITATION_BUFFER_LEN = b := by
      intro b hb
      rw [truncate_buffer_if_needed, if_neg (by omega)]
    rw [fill_buffers]
    cases ur with
    | false => simp [fill_buffer_with_targets, htrunc e he]
    | true => simp [fill_buffer_with_targets, htrunc e he, htrunc r hr]

/-- Witness for `open_failure_leaves_state_unchanged` on concrete
single-record buffers with the reanalyze phase active. -/
theorem open_failure_leaves_state_unchanged_witness :
    fill_buffer_with_targets (fun n : Nat => some n) [⟨(3 : Nat), 1, 2⟩] 5
        (none : Option (List Nat)) 1 9 = Except.error () ∧
    fill_buffers (fun n : Nat => some n) [⟨(3 : Nat), 1, 2⟩] 5 [⟨4, 1, 2⟩] 7
        (none : Option (List Nat)) none 9 true =
      ([⟨3, 1, 2⟩], 5, [⟨4, 1, 2⟩], 7) := by
  have h := open_failure_leaves_state_unchanged (fun n : Nat => some n)
    [⟨(3 : Nat), 1, 2⟩] 5 1 9
  exact ⟨h.1, h.2 [⟨3, 1, 2⟩] [⟨4, 1, 2⟩] 5 7 9 true (by decide) (by decide)⟩

/-- Helper: shape of a loop iteration whose readiness check fails. -/
theorem mainLoopStep_of_not_ready {σ α : Type} (parse : σ → Option α)
    (input : StepInput σ α) (s : LoopState α)
    (h : readyToTrain (phaseOf s) (filledOf parse input s).1
      (filledOf parse input s).2.2.1 = false) :
    mainLoopStep parse input s =
      (⟨s.model_steps + 1, (filledOf parse input s).1,
        (filledOf parse input s).2.1, (filledOf parse input s).2.2.1,
        (filledOf parse input s).2.2.2⟩, none) := by
  rw [mainLoopStep]
  simp only [h, Bool.false_eq_true, if_false]

/-- Helper: shape of a loop iteration whose readiness check passes. -/
theorem mainLoopStep_of_ready {σ α : Type} (parse : σ → Option α)
    (input : StepInput σ α) (s : LoopState α)
    (h : readyToTrain (phaseOf s) (filledOf parse input s).1
      (filledOf parse input s).2.2.1 = true) :
    mainLoopStep parse input s =
      (⟨s.model_steps + 1,
        (create_batch (phaseOf s) input.exploitation_shuffle
          input.reanalyze_shuffle (filledOf parse input s).1
          (filledOf parse input s).2.2.1).2.1,
        (filledOf parse input s).2.1,
        (create_batch (phaseOf s) input.exploitation_shuffle
          input.reanalyze_shuffle (filledOf parse input s).1
          (filledOf parse input s).2.2.1).2.2,
        (filledOf parse input s).2.2.2⟩,
      some (create_batch (phaseOf s) input.exploitation_shuffle
        input.reanalyze_shuffle (filledOf parse input s).1
        (filledOf parse input s).2.2.1).1) := by
  rw [mainLoopStep]
  simp only [h, if_true]

/-- Helper: the loop counter advances by one on every iteration,
whether or not a batch was composed. -/
theorem mainLoopStep_model_steps {σ α : Type} (parse : σ → Option α)
    (input : StepInput σ α) (s : LoopState α) :
    (mainLoopStep parse input s).1.model_steps = s.model_steps + 1 := by
  by_cases h : readyToTrain (phaseOf s) (filledOf parse input s).1
      (filledOf parse input s).2.2.1 = true
  · rw [mainLoopStep_of_ready parse input s h]
  · rw [mainLoopStep_of_not_ready parse input s (by
      revert h
      cases readyToTrain (phaseOf s) (filledOf parse input s).1
        (filledOf parse input s).2.2.1 <;> simp)]

/-- C6: no iteration draws records unless the readiness check on the
post-ingestion buffers passes — on a failed check nothing is removed from
either buffer — and a produced batch is never partial: it has exactly
`BATCH_SIZE` records, in mixed phase both buffers held at least
`BATCH_SIZE / 2` records (so the end-drains are in bounds and draw exactly
`BATCH_SIZE / 2` each), and in exploitation-only phase the exploitation
buffer held at least `BATCH_SIZE` records. -/
theorem batch_readiness_guard {σ α : Type} (parse : σ → Option α)
    (input : StepInput σ α) (s : LoopState α)
    (hE : ∀ l, List.Perm (input.exploitation_shuffle l) l)
    (hR : ∀ l, List.Perm (input.reanalyze_shuffle l) l) :
    (readyToTrain (phaseOf s) (filledOf parse input s).1
        (filledOf parse input s).2.2.1 = false →
      (mainLoopStep parse input s).2 = none ∧
      (mainLoopStep parse input s).1.exploitation_buffer =
        (filledOf parse input s).1 ∧
      (mainLoopStep parse input s).1.reanalyze_buffer =
        (filledOf parse input s).2.2.1) ∧
    (∀ batch, (mainLoopStep parse input s).2 = some batch →
      batch.length = BATCH_SIZE ∧
      (phaseOf s = true →
        BATCH_SIZE / 2 ≤ (filledOf parse input s).1.length ∧
        BATCH_SIZE / 2 ≤ (filledOf parse input s).2.2.1.length) ∧
      (phaseOf s = false →
        BATCH_SIZE ≤ (filledOf parse input s).1.length)) := by
  by_cases hready : readyToTrain (phaseOf s) (filledOf parse input s).1
      (filledOf parse input s).2.2.1 = true
  · constructor
    · intro hfalse
      rw [hready] at hfalse
      exact absurd hfalse (by simp)
    · intro batch hbatch
      have hmin : MIN_EXPLOITATION_BUFFER_LEN ≤
          (filledOf parse input s).1.length := by
        rw [readyToTrain, Bool.and_eq_true, decide_eq_true_eq] at hready
        exact hready.1
      have hbatch' : batch = (create_batch (phaseOf s)
          input.exploitation_shuffle input.reanalyze_shuffle
          (filledOf parse input s).1 (filledOf parse input s).2.2.1).1 := by
        rw [mainLoopStep] at hbatch
        simp only [hready, if_true] at hbatch
        exact (Option.some_inj.mp hbatch).symm
      have heLen : (input.exploitation_shuffle
          (filledOf parse input s).1).length =
          (filledOf parse input s).1.length := (hE _).length_eq
      have hrLen : (input.reanalyze_shuffle
          (filledOf parse input s).2.2.1).length =
          (filledOf parse input s).2.2.1.length := (hR _).length_eq
      have h1 : MIN_EXPLOITATION_BUFFER_LEN = 2000 := rfl
      have h2 : BATCH_SIZE = 128 := rfl
      cases hphase : phaseOf s with
      | true =>
        have hhalf : BATCH_SIZE / 2 ≤ (filledOf parse input s).2.2.1.length := by
          rw [readyToTrain, hphase, Bool.and_eq_true] at hready
          simp only [Bool.not_true, Bool.false_or, decide_eq_true_eq] at hready
          exact hready.2
        refine ⟨?_, ?_, ?_⟩
        · rw [hbatch', hphase, create_batch]
          simp only [if_true, List.length_append, List.length_drop, heLen, hrLen]
          omega
        · intro _
          exact ⟨by omega, hhalf⟩
        · intro habs
          simp at habs
      | false =>
        refine ⟨?_, ?_, ?_⟩
        · rw [hbatch', hphase, create_batch]
          simp only [Bool.false_eq_true, if_false, List.length_drop, heLen]
          omega
        · intro habs
          simp at habs
        · intro _
          omega
  · have hready' : readyToTrain (phaseOf s) (filledOf parse input s).1
        (filledOf parse input s).2.2.1 = false := by
      revert hready
      cases readyToTrain (phaseOf s) (filledOf parse input s).1
        (filledOf parse input s).2.2.1 <;> simp
    have hstep : mainLoopStep parse input s =
        (⟨s.model_steps + 1, (filledOf parse input s).1,
          (filledOf parse input s).2.1, (filledOf parse input s).2.2.1,
          (filledOf parse input s).2.2.2⟩, none) := by
      rw [mainLoopStep]
      simp only [hready', Bool.false_eq_true, if_false]
    constructor
    · intro _
      rw [hstep]
      exact ⟨rfl, rfl, rfl⟩
    · intro batch hbatch
      rw [hstep] at hbatch
      cases hbatch

/-- Witness for `batch_readiness_guard`: a concrete iteration below the
reanalyze threshold whose readiness check fails (empty buffers, unreadable
files) neither trains nor drains. -/
theorem batch_readiness_guard_witness :
    (mainLoopStep (fun n : Nat => some n) ⟨none, none, id, id⟩
        (⟨0, [], 0, [], 0⟩ : LoopState Nat)).2 = none ∧
    (mainLoopStep (fun n : Nat => some n) ⟨none, none, id, id⟩
        (⟨0, [], 0, [], 0⟩ : LoopState Nat)).1.exploitation_buffer = [] := by
  have h := (batch_readiness_guard (fun n : Nat => some n) ⟨none, none, id, id⟩
    (⟨0, [], 0, [], 0⟩ : LoopState Nat)
    (fun l => List.Perm.refl l) (fun l => List.Perm.refl l)).1 (by decide)
  exact ⟨h.1, by rw [h.2.1]; decide⟩

/-- C1 (amended): when the readiness check fails the iteration does not
train — no batch is composed and nothing is drawn from either buffer —
but the step counter is the loop variable of `for model_steps in
starting_steps..` and still advances: the next iteration observes
`model_steps + 1`, not `model_steps`. -/
theorem no_train_on_insufficient_data_but_counter_advances {σ α : Type}
    (parse : σ → Option α) (input : StepInput σ α) (s : LoopState α)
    (h : readyToTrain (phaseOf s) (filledOf parse input s).1
      (filledOf parse input s).2.2.1 = false) :
    (mainLoopStep parse input s).2 = none ∧
    (mainLoopStep parse input s).1.model_steps = s.model_steps + 1 ∧
    (mainLoopStep parse input s).1.exploitation_buffer =
      (filledOf parse input s).1 ∧
    (mainLoopStep parse input s).1.reanalyze_buffer =
      (filledOf parse input s).2.2.1 := by
  rw [mainLoopStep_of_not_ready parse input s h]
  exact ⟨rfl, rfl, rfl, rfl⟩

/-- Counterexample to C1 as stated: at a concrete iteration (step count 0,
empty buffers, unreadable stream files) the readiness check fails, yet the
model-step count observed by the next iteration is 1, not 0. -/
theorem insufficient_data_still_advances_counter_cex :
    readyToTrain (phaseOf (⟨0, [], 0, [], 0⟩ : LoopState Nat))
      (filledOf (fun n : Nat => some n) ⟨none, none, id, id⟩
        (⟨0, [], 0, [], 0⟩ : LoopState Nat)).1
      (filledOf (fun n : Nat => some n) ⟨none, none, id, id⟩
        (⟨0, [], 0, [], 0⟩ : LoopState Nat)).2.2.1 = false ∧
    ¬ (mainLoopStep (fun n : Nat => some n) ⟨none, none, id, id⟩
        (⟨0, [], 0, [], 0⟩ : LoopState Nat)).1.model_steps =
      (⟨0, [], 0, [], 0⟩ : LoopState Nat).model_steps := by
  constructor
  · decide
  · decide

/-- Witness for `no_train_on_insufficient_data_but_counter_advances` at
the concrete iteration of the counterexample. -/
theorem no_train_on_insufficient_data_but_counter_advances_witness :
    (mainLoopStep (fun n : Nat => some n) ⟨none, none, id, id⟩
        (⟨0, [], 0, [], 0⟩ : LoopState Nat)).2 = none ∧
    (mainLoopStep (fun n : Nat => some n) ⟨none, none, id, id⟩
        (⟨0, [], 0, [], 0⟩ : LoopState Nat)).1.model_steps = 0 + 1 := by
  have h := no_train_on_insufficient_data_but_counter_advances
    (fun n : Nat => some n) ⟨none, none, id, id⟩
    (⟨0, [], 0, [], 0⟩ : LoopState Nat) (by decide)
  exact ⟨h.1, h.2.1⟩

/-- C8: the phase flag is `model_steps >= STEPS_BEFORE_REANALYZE` over a
counter that only ever increases, so once the threshold is reached the
loop is in mixed phase forever; and below the threshold an iteration never
consults the reanalyze stream — its result does not depend on the
reanalyze buffer at all, the reanalyze cursor is untouched, and the
reanalyze buffer is preserved (up to the permutation performed by the
unconditional shuffle in `create_batch`). -/
theorem reanalyze_phase_monotone_and_isolated {σ α : Type}
    (parse : σ → Option α) :
    (∀ (input : StepInput σ α) (s : LoopState α),
      (mainLoopStep parse input s).1.model_steps = s.model_steps + 1) ∧
    (∀ (inputs : Nat → StepInput σ α) (s : LoopState α) (k : Nat),
      STEPS_BEFORE_REANALYZE ≤ s.model_steps →
      STEPS_BEFORE_REANALYZE ≤ (runLoop parse inputs k s).model_steps) ∧
    (∀ (input : StepInput σ α) (s₁ s₂ : LoopState α),
      s₁.model_steps < STEPS_BEFORE_REANALYZE →
      s₁.model_steps = s₂.model_steps →
      s₁.exploitation_buffer = s₂.exploitation_buffer →
      s₁.exploitation_targets_read = s₂.exploitation_targets_read →
      (∀ l, List.Perm (input.reanalyze_shuffle l) l) →
      (mainLoopStep parse input s₁).2 = (mainLoopStep parse input s₂).2 ∧
      (mainLoopStep parse input s₁).1.model_steps =
        (mainLoopStep parse input s₂).1.model_steps ∧
      (mainLoopStep parse input s₁).1.exploitation_buffer =
        (mainLoopStep parse input s₂).1.exploitation_buffer ∧
      (mainLoopStep parse input s₁).1.exploitation_targets_read =
        (mainLoopStep parse input s₂).1.exploitation_targets_read ∧
      (mainLoopStep parse input s₁).1.reanalyze_targets_read =
        s₁.reanalyze_targets_read ∧
      List.Perm (mainLoopStep parse input s₁).1.reanalyze_buffer
        s₁.reanalyze_buffer) := by
  refine ⟨mainLoopStep_model_steps parse, ?_, ?_⟩
  · intro inputs s k h
    induction k with
    | zero => exact h
    | succ k ih =>
      have := mainLoopStep_model_steps parse (inputs k) (runLoop parse inputs k s)
      rw [runLoop, this]
      omega
  · intro input s₁ s₂ hlt hms he her hR
    have hp1 : phaseOf s₁ = false := by
      rw [phaseOf]
      simp only [decide_eq_false_iff_not]
      omega
    have hp2 : phaseOf s₂ = false := by
      rw [phaseOf]
      simp only [decide_eq_false_iff_not]
      omega
    have hfE : (filledOf parse input s₁).1 = (filledOf parse input s₂).1 := by
      rw [filledOf, filledOf, hp1, hp2, hms, he, her]
      rfl
    have hfER : (filledOf parse input s₁).2.1 =
        (filledOf parse input s₂).2.1 := by
      rw [filledOf, filledOf, hp1, hp2, hms, he, her]
      rfl
    have hfR1 : (filledOf parse input s₁).2.2.1 = s₁.reanalyze_buffer := by
      rw [filledOf, hp1]
      rfl
    have hfR2 : (filledOf parse input s₂).2.2.1 = s₂.reanalyze_buffer := by
      rw [filledOf, hp2]
      rfl
    have hfC1 : (filledOf parse input s₁).2.2.2 =
        s₁.reanalyze_targets_read := by
      rw [filledOf, hp1]
      rfl
    have hready12 : readyToTrain (phaseOf s₁) (filledOf parse input s₁).1
        (filledOf parse input s₁).2.2.1 =
        readyToTrain (phaseOf s₂) (filledOf parse input s₂).1
          (filledOf parse input s₂).2.2.1 := by
      rw [hp1, hp2, hfE]
      rfl
    by_cases hready : readyToTrain (phaseOf s₁) (filledOf parse input s₁).1
        (filledOf parse input s₁).2.2.1 = true
    · rw [mainLoopStep_of_ready parse input s₁ hready,
        mainLoopStep_of_ready parse input s₂ (hready12 ▸ hready)]
      rw [hp1, hp2, hfE, hfR1, hfR2]
      refine ⟨?_, by simpa using hms, ?_, by simpa using hfER, ?_, ?_⟩
      · rw [create_batch, create_batch]
        rfl
      · rw [create_batch, create_batch]
        rfl
      · simpa using hfC1
      · show (create_batch false input.exploitation_shuffle
          input.reanalyze_shuffle (filledOf parse input s₂).1
          s₁.reanalyze_buffer).2.2.Perm s₁.reanalyze_buffer
        rw [create_batch]
        exact hR s₁.reanalyze_buffer
    · have hready' : readyToTrain (phaseOf s₁) (filledOf parse input s₁).1
          (filledOf parse input s₁).2.2.1 = false := by
        revert hready
        cases readyToTrain (phaseOf s₁) (filledOf parse input s₁).1
          (filledOf parse input s₁).2.2.1 <;> simp
      rw [mainLoopStep_of_not_ready parse input s₁ hready',
        mainLoopStep_of_not_ready parse input s₂ (hready12 ▸ hready')]
      refine ⟨rfl, by simpa using hms, by simpa using hfE,
        by simpa using hfER, by simpa using hfC1, ?_⟩
      simp only [hfR1]
      exact List.Perm.refl _

/-- Witness for `reanalyze_phase_monotone_and_isolated`: below the
threshold, two concrete iterations that differ only in their reanalyze
buffer and cursor behave identically and keep their reanalyze cursor. -/
theorem reanalyze_phase_monotone_and_isolated_witness :
    (mainLoopStep (fun n : Nat => some n) ⟨none, none, id, id⟩
        (⟨4999, [], 0, [⟨11, 1, 0⟩], 3⟩ : LoopState Nat)).2 =
      (mainLoopStep (fun n : Nat => some n) ⟨none, none, id, id⟩
        (⟨4999, [], 0, [], 9⟩ : LoopState Nat)).2 ∧
    (mainLoopStep (fun n : Nat => some n) ⟨none, none, id, id⟩
        (⟨4999, [], 0, [⟨11, 1, 0⟩], 3⟩ : LoopState Nat)).1.reanalyze_targets_read = 3 := by
  have h := (reanalyze_phase_monotone_and_isolated (fun n : Nat => some n)).2.2
    ⟨none, none, id, id⟩
    (⟨4999, [], 0, [⟨11, 1, 0⟩], 3⟩ : LoopState Nat)
    (⟨4999, [], 0, [], 9⟩ : LoopState Nat)
    (by decide) rfl rfl rfl (fun l => List.Perm.refl l)
  exact ⟨h.1, h.2.2.2.2.1⟩

/-- C10: in mixed phase (both buffers at least `BATCH_SIZE / 2` long), the
batch is the drained exploitation half followed by the drained reanalyze
half, the new exploitation buffer is its own kept front plus the reused
survivors of the exploitation half only, and the new reanalyze buffer is
its own kept front plus the reused survivors of the reanalyze half only —
records never migrate between the two buffers. -/
theorem mixed_batch_records_return_to_their_buffer {α : Type}
    (exploitation_shuffle reanalyze_shuffle :
      List (TargetWithContext α) → List (TargetWithContext α))
    (e r : List (TargetWithContext α))
    (hE : List.Perm (exploitation_shuffle e) e)
    (hR : List.Perm (reanalyze_shuffle r) r)
    (he : BATCH_SIZE / 2 ≤ e.length) (_hr : BATCH_SIZE / 2 ≤ r.length) :
    (create_batch true exploitation_shuffle reanalyze_shuffle e r).1 =
      (exploitation_shuffle e).drop
          ((exploitation_shuffle e).length - BATCH_SIZE / 2) ++
        (reanalyze_shuffle r).drop
          ((reanalyze_shuffle r).length - BATCH_SIZE / 2) ∧
    (create_batch true exploitation_shuffle reanalyze_shuffle e r).2.1 =
      (exploitation_shuffle e).take
          ((exploitation_shuffle e).length - BATCH_SIZE / 2) ++
        ((exploitation_shuffle e).drop
          ((exploitation_shuffle e).length - BATCH_SIZE / 2)).filterMap
          TargetWithContext.reuse ∧
    (create_batch true exploitation_shuffle reanalyze_shuffle e r).2.2 =
      (reanalyze_shuffle r).take
          ((reanalyze_shuffle r).length - BATCH_SIZE / 2) ++
        ((reanalyze_shuffle r).drop
          ((reanalyze_shuffle r).length - BATCH_SIZE / 2)).filterMap
          TargetWithContext.reuse ∧
    (∀ x ∈ (exploitation_shuffle e).drop
        ((exploitation_shuffle e).length - BATCH_SIZE / 2), x ∈ e) ∧
    (∀ x ∈ (reanalyze_shuffle r).drop
        ((reanalyze_shuffle r).length - BATCH_SIZE / 2), x ∈ r) := by
  have heLen : (exploitation_shuffle e).length = e.length := hE.length_eq
  have hdlen : ((exploitation_shuffle e).drop
      ((exploitation_shuffle e).length - BATCH_SIZE / 2)).length =
      BATCH_SIZE / 2 := by
    rw [List.length_drop]
    omega
  have hsplit : ∀ (a b : List (TargetWithContext α)), a.length = BATCH_SIZE / 2 →
      (a ++ b).take (BATCH_SIZE / 2) = a ∧ (a ++ b).drop (BATCH_SIZE / 2) = b := by
    intro a b ha
    constructor
    · rw [← ha, List.take_left]
    · rw [← ha, List.drop_left]
  obtain ⟨htake, hdrop⟩ := hsplit _ ((reanalyze_shuffle r).drop
    ((reanalyze_shuffle r).length - BATCH_SIZE / 2)) hdlen
  have hcb : create_batch true exploitation_shuffle reanalyze_shuffle e r =
      ((exploitation_shuffle e).drop
          ((exploitation_shuffle e).length - BATCH_SIZE / 2) ++
        (reanalyze_shuffle r).drop
          ((reanalyze_shuffle r).length - BATCH_SIZE / 2),
       (exploitation_shuffle e).take
          ((exploitation_shuffle e).length - BATCH_SIZE / 2) ++
        (((exploitation_shuffle e).drop
            ((exploitation_shuffle e).length - BATCH_SIZE / 2) ++
          (reanalyze_shuffle r).drop
            ((reanalyze_shuffle r).length - BATCH_SIZE / 2)).take
          (BATCH_SIZE / 2)).filterMap TargetWithContext.reuse,
       (reanalyze_shuffle r).take
          ((reanalyze_shuffle r).length - BATCH_SIZE / 2) ++
        (((exploitation_shuffle e).drop
            ((exploitation_shuffle e).length - BATCH_SIZE / 2) ++
          (reanalyze_shuffle r).drop
            ((reanalyze_shuffle r).length - BATCH_SIZE / 2)).drop
          (BATCH_SIZE / 2)).filterMap TargetWithContext.reuse) := rfl
  rw [hcb]
  refine ⟨rfl, ?_, ?_, ?_, ?_⟩
  · rw [htake]
  · rw [hdrop]
  · intro x hx
    exact hE.mem_iff.mp (List.mem_of_mem_drop hx)
  · intro x hx
    exact hR.mem_iff.mp (List.mem_of_mem_drop hx)

/-- Witness for `mixed_batch_records_return_to_their_buffer` on concrete
buffers of exactly `BATCH_SIZE / 2` records each. -/
theorem mixed_batch_records_return_to_their_buffer_witness :
    (create_batch true id id
        (List.replicate 64 (⟨0, 1, 0⟩ : TargetWithContext Nat))
        (List.replicate 64 (⟨1, 2, 0⟩ : TargetWithContext Nat))).1 =
      List.replicate 64 (⟨0, 1, 0⟩ : TargetWithContext Nat) ++
        List.replicate 64 (⟨1, 2, 0⟩ : TargetWithContext Nat) := by
  have h := (mixed_batch_records_return_to_their_buffer id id
    (List.replicate 64 (⟨0, 1, 0⟩ : TargetWithContext Nat))
    (List.replicate 64 (⟨1, 2, 0⟩ : TargetWithContext Nat))
    (List.Perm.refl _) (List.Perm.refl _)
    (by simp [BATCH_SIZE]) (by simp [BATCH_SIZE])).1
  rw [h]
  simp [BATCH_SIZE]

theorem maxByKeyLast_spec (l : List (Nat × List Char)) (x : Nat × List Char)
    (hx : maxByKeyLast l = some x) :
    x ∈ l ∧ ∀ y ∈ l, y.1 ≤ x.1 := by
  have key : ∀ (l : List (Nat × List Char)) (a : Option (Nat × List Char))
      (x : Nat × List Char),
      l.foldl (fun acc x =>
        match acc with
        | none => some x
        | some a => if a.1 ≤ x.1 then some x else some a) a = some x →
      (a = some x ∨ x ∈ l) ∧ (∀ y ∈ l, y.1 ≤ x.1) ∧
        (∀ b, a = some b → b.1 ≤ x.1) := by
    intro l
    induction l with
    | nil =>
      intro a x h
      refine ⟨Or.inl h, by simp, ?_⟩
      intro b hb
      rw [hb] at h
      cases h
      exact Nat.le_refl _
    | cons y l ih =>
      intro a x h
      rw [List.foldl_cons] at h
      obtain ⟨hmem, hge, hacc⟩ := ih _ x h
      have hy : y.1 ≤ x.1 := by
        cases a with
        | none => exact hacc y rfl
        | some a' =>
          by_cases hcmp : a'.1 ≤ y.1
          · exact hacc y (by simp [hcmp])
          · have := hacc a' (by simp [hcmp])
            omega
      refine ⟨?_, ?_, ?_⟩
      · rcases hmem with hmem | hmem
        · cases a with
          | none =>
            cases hmem
            exact Or.inr (List.mem_cons_self _ _)
          | some a' =>
            by_cases hcmp : a'.1 ≤ y.1
            · simp only [hcmp, if_true] at hmem
              cases hmem
              exact Or.inr (List.mem_cons_self _ _)
            · simp only [hcmp, if_false] at hmem
              exact Or.inl hmem
        · exact Or.inr (List.mem_cons_of_mem _ hmem)
      · intro z hz
        rcases List.mem_cons.mp hz with rfl | hz
        · exact hy
        · exact hge z hz
      · intro b hb
        cases a with
        | none => cases hb
        | some a' =>
          cases hb
          by_cases hcmp : b.1 ≤ y.1
          · have := hacc y (by simp [hcmp])
            omega
          · exact hacc b (by simp [hcmp])
  obtain ⟨hmem, hge, _⟩ := key l none x hx
  rcases hmem with hmem | hmem
  · cases hmem
  · exact ⟨hmem, hge⟩

/-- C7: checkpoint discovery returns an entry of the directory that is a
valid checkpoint file whose embedded step count is maximal among all
valid checkpoint files; when no entry is a valid checkpoint it signals
no-checkpoint; and on the concrete directory holding checkpoints for
steps 0, 1000 and 5000 plus the fixed-name latest file it resumes from
step 5000. -/
theorem checkpoint_discovery_selects_max :
    (∀ (directory : List (List Char)) (s : Nat) (p : List Char),
      get_model_path_with_most_steps directory = some (s, p) →
      p ∈ directory ∧ checkpointSteps p = some s ∧
        ∀ q ∈ directory, ∀ s', checkpointSteps q = some s' → s' ≤ s) ∧
    (∀ directory : List (List Char),
      (∀ q ∈ directory, checkpointSteps q = none) →
      get_model_path_with_most_steps directory = none) ∧
    get_model_path_with_most_steps
        [String.toList "model_000000.ot", String.toList "model_001000.ot",
         String.toList "model_005000.ot", String.toList "model_latest.ot"] =
      some (5000, String.toList "model_005000.ot") := by
  refine ⟨?_, ?_, ?_⟩
  · intro directory s p h
    obtain ⟨hmem, hge⟩ := maxByKeyLast_spec _ _ h
    obtain ⟨q, hq, hq'⟩ := List.mem_filterMap.mp hmem
    obtain ⟨s', hs', heq⟩ := Option.map_eq_some.mp hq'
    cases heq
    refine ⟨hq, hs', ?_⟩
    intro q' hq'mem s'' hs''
    exact hge (s'', q') (List.mem_filterMap.mpr ⟨q', hq'mem, by rw [hs'']; rfl⟩)
  · intro directory hnone
    have : directory.filterMap
        (fun p => (checkpointSteps p).map (fun s => (s, p))) = [] := by
      rw [List.filterMap_eq_nil_iff]
      intro a ha
      rw [hnone a ha]
      rfl
    rw [get_model_path_with_most_steps, this]
    rfl
  · decide

/-- Witness for `checkpoint_discovery_selects_max`, applying the maximal
case to the concrete four-entry directory of the scenario. -/
theorem checkpoint_discovery_selects_max_witness :
    String.toList "model_005000.ot" ∈
      [String.toList "model_000000.ot", String.toList "model_001000.ot",
       String.toList "model_005000.ot", String.toList "model_latest.ot"] ∧
    checkpointSteps (String.toList "model_005000.ot") = some 5000 := by
  have h := checkpoint_discovery_selects_max
  have h1 := h.1 [String.toList "model_000000.ot", String.toList "model_001000.ot",
    String.toList "model_005000.ot", String.toList "model_latest.ot"]
    5000 (String.toList "model_005000.ot") h.2.2
  exact ⟨h1.1, h1.2.1⟩

theorem episodeTargetsAux_length {S A V : Type}
    (populate_actions : S → List A) (negate : V → V) (v : V) (l : List S) :
    (episodeTargetsAux populate_actions negate v l).length = l.length := by
  induction l generalizing v with
  | nil => rfl
  | cons env rest ih => simp [episodeTargetsAux, ih]

theorem episodeTargetsAux_getElem {S A V : Type}
    (populate_actions : S → List A) (negate : V → V) (v : V) (l : List S)
    (j : Nat) (hj : j < l.length) :
    (episodeTargetsAux populate_actions negate v l)[j]? =
      l[j]?.map (fun env =>
        ⟨env, (populate_actions env).map
            (fun a => (a, (1 : ℚ) / (populate_actions env).length)),
          negate^[j + 1] v, 1⟩) := by
  induction l generalizing v j with
  | nil => cases hj
  | cons env rest ih =>
    cases j with
    | zero => simp [episodeTargetsAux]
    | succ j =>
      have hj' : j < rest.length := Nat.lt_of_succ_lt_succ hj
      rw [episodeTargetsAux]
      simp only [List.getElem?_cons_succ]
      rw [ih (negate v) j hj']
      have hit : negate^[j + 1] (negate v) = negate^[j + 1 + 1] v := by
        rw [← Function.iterate_succ_apply]
      rw [hit]

/-- C9: for a finished episode with terminal outcome `v`, the bootstrap
walk produces one target per recorded state; the target at result
position `j` (0-based) belongs to the state `j + 1` plies before the
terminal position — reading the states in play order, position
`states.length − (j + 1)` — and carries the value `v` negated `j + 1`
times, the uniform policy assigning each legal action of that state
probability `1 / (number of legal actions)`, and the fixed placeholder
uncertainty 1. -/
theorem bootstrap_episode_targets_spec {S A V : Type}
    (populate_actions : S → List A) (negate : V → V) (v : V)
    (states : List S) :
    (episodeTargets populate_actions negate v states).length =
      states.length ∧
    ∀ j, j < states.length →
      (episodeTargets populate_actions negate v states)[j]? =
        states[states.length - (j + 1)]?.map (fun env =>
          ⟨env, (populate_actions env).map
              (fun a => (a, (1 : ℚ) / (populate_actions env).length)),
            negate^[j + 1] v, 1⟩) := by
  constructor
  · rw [episodeTargets, episodeTargetsAux_length, List.length_reverse]
  · intro j hj
    have hj' : j < states.reverse.length := by rwa [List.length_reverse]
    rw [episodeTargets, episodeTargetsAux_getElem _ _ _ _ j hj',
      List.getElem?_reverse hj]
    have hidx : states.length - 1 - j = states.length - (j + 1) := by omega
    rw [hidx]

/-- Witness for `bootstrap_episode_targets_spec` on a concrete two-state
episode over `S = A = Nat`, `V = ℤ` with genuine negation: the state one
ply before the terminal gets value `-v`, the earlier state `v`. -/
theorem bootstrap_episode_targets_spec_witness :
    (episodeTargets (fun s : Nat => [s, s + 1]) (fun z : Int => -z) 1
        [10, 20]).length = 2 ∧
    (episodeTargets (fun s : Nat => [s, s + 1]) (fun z : Int => -z) 1
        [10, 20])[0]? =
      some ⟨20, [(20, 1 / 2), (21, 1 / 2)], -1, 1⟩ ∧
    (episodeTargets (fun s : Nat => [s, s + 1]) (fun z : Int => -z) 1
        [10, 20])[1]? =
      some ⟨10, [(10, 1 / 2), (11, 1 / 2)], 1, 1⟩ := by
  have h := bootstrap_episode_targets_spec (fun s : Nat => [s, s + 1])
    (fun z : Int => -z) 1 [10, 20]
  refine ⟨h.1, ?_, ?_⟩
  · rw [h.2 0 (by decide)]
    simp
  · rw [h.2 1 (by decide)]
    simp

/-- Witness for `reuse_exact_uses` at a concrete record with three uses. -/
theorem reuse_exact_uses_witness :
    reuseIter 1 (⟨(0 : Nat), 3, 7⟩ : TargetWithContext Nat) = some ⟨0, 2, 7⟩ ∧
    reuseIter 3 (⟨(0 : Nat), 3, 7⟩ : TargetWithContext Nat) = none := by
  have h := reuse_exact_uses (⟨(0 : Nat), 3, 7⟩ : TargetWithContext Nat) 3
    (by decide) (by decide)
  exact ⟨h.1 1 (by decide), h.2 3 (by decide)⟩

end Takzero
